import Mathlib

/-!
Verification development for the `content_scraper` repository (`src/app.py`),
a breadth-first web crawler with robots.txt support, structural HTML content
extraction, and post-crawl analysis (duplicate detection, broken-link
detection).

The Python source is shallowly embedded: pure helper functions become Lean
functions, the BFS `while` loop of `crawl_site` becomes a well-founded
recursive function over an explicit state (frontier queue, visited list,
record map, trace of applied sleep delays), and the external world (HTTP
fetching) is a parameter `world : String → Option Doc`.  Machine hashing
(`hashlib.md5(...).hexdigest()`) is embedded as a full MD5 implementation
over `Nat` with explicit reduction modulo 2^32.  Library behaviour the
program relies on (`urllib.parse.urlparse`, `urllib.robotparser`) is
embedded following the CPython semantics that the program observes.
-/

set_option maxRecDepth 100000

namespace ContentScraper

/-! ## Basic string helpers

Python string operations used by the source (`.strip()`, `.startswith`,
`"\n".join`, `.lower()`), defined by structural recursion over character
lists so that every definition evaluates inside the kernel. -/

/-- Python `str.strip()` / BeautifulSoup `get_text(strip=True)`:
drop whitespace from both ends. -/
def pyStrip (s : String) : String :=
  String.mk (((s.data.dropWhile Char.isWhitespace).reverse.dropWhile Char.isWhitespace).reverse)

/-- Python `str.startswith(p)`. -/
def pyStartsWith (s p : String) : Bool :=
  p.data.isPrefixOf s.data

/-- Python `sep.join(parts)`. -/
def joinWith (sep : String) : List String → String
  | [] => ""
  | [x] => x
  | x :: y :: rest => x ++ sep ++ joinWith sep (y :: rest)

/-- Python `str.lower()` restricted to ASCII (enough for URL schemes). -/
def pyLower (s : String) : String :=
  String.mk (s.data.map Char.toLower)

/-! ## MD5 (embedding of `hashlib.md5(...).hexdigest()`)

`compute_text_hash` in `src/app.py` returns
`hashlib.md5(joined.encode('utf-8', errors='ignore')).hexdigest()`.
The digest is embedded in full: UTF-8 encoding of the string, MD5 padding,
the 64-round compression function over 32-bit words represented as `Nat`
with explicit `% 2^32`, and lowercase hex serialization. -/

namespace MD5

/-- 2^32, the word modulus. -/
def M32 : Nat := 4294967296

/-- Bitwise complement on a 32-bit word. -/
def compl32 (x : Nat) : Nat := 4294967295 - x % M32

/-- Left-rotation of a 32-bit word by `n` bits. -/
def rotl (x n : Nat) : Nat :=
  ((x % M32) * 2 ^ n + (x % M32) / 2 ^ (32 - n)) % M32

/-- The 64 sine-derived round constants `K[i] = floor(2^32 * |sin(i+1)|)`. -/
def K : List Nat :=
  [3614090360, 3905402710, 606105819, 3250441966, 4118548399, 1200080426, 2821735955, 4249261313,
   1770035416, 2336552879, 4294925233, 2304563134, 1804603682, 4254626195, 2792965006, 1236535329,
   4129170786, 3225465664, 643717713, 3921069994, 3593408605, 38016083, 3634488961, 3889429448,
   568446438, 3275163606, 4107603335, 1163531501, 2850285829, 4243563512, 1735328473, 2368359562,
   4294588738, 2272392833, 1839030562, 4259657740, 2763975236, 1272893353, 4139469664, 3200236656,
   681279174, 3936430074, 3572445317, 76029189, 3654602809, 3873151461, 530742520, 3299628645,
   4096336452, 1126891415, 2878612391, 4237533241, 1700485571, 2399980690, 4293915773, 2240044497,
   1873313359, 4264355552, 2734768916, 1309151649, 4149444226, 3174756917, 718787259, 3951481745]

/-- Per-round left-rotation amounts. -/
def S : List Nat :=
  [7, 12, 17, 22, 7, 12, 17, 22, 7, 12, 17, 22, 7, 12, 17, 22,
   5, 9, 14, 20, 5, 9, 14, 20, 5, 9, 14, 20, 5, 9, 14, 20,
   4, 11, 16, 23, 4, 11, 16, 23, 4, 11, 16, 23, 4, 11, 16, 23,
   6, 10, 15, 21, 6, 10, 15, 21, 6, 10, 15, 21, 6, 10, 15, 21]

/-- The round-dependent nonlinear function. -/
def mixF (i b c d : Nat) : Nat :=
  if i < 16 then Nat.lor (Nat.land b c) (Nat.land (compl32 b) d)
  else if i < 32 then Nat.lor (Nat.land d b) (Nat.land (compl32 d) c)
  else if i < 48 then Nat.xor b (Nat.xor c d)
  else Nat.xor c (Nat.lor b (compl32 d))

/-- The round-dependent message-word index. -/
def gIdx (i : Nat) : Nat :=
  if i < 16 then i
  else if i < 32 then (5 * i + 1) % 16
  else if i < 48 then (3 * i + 5) % 16
  else (7 * i) % 16

/-- One MD5 round applied to the running state `(a, b, c, d)`. -/
def round (msg : List Nat) (st : Nat × Nat × Nat × Nat) (i : Nat) : Nat × Nat × Nat × Nat :=
  let (a, b, c, d) := st
  let f := (mixF i b c d + a + K.getD i 0 + msg.getD (gIdx i) 0) % M32
  (d, (b + rotl f (S.getD i 0)) % M32, b, c)

/-- Process one 16-word block, folding the 64 rounds and adding the result
to the incoming state. -/
def processBlock (st : Nat × Nat × Nat × Nat) (msg : List Nat) : Nat × Nat × Nat × Nat :=
  let (a0, b0, c0, d0) := st
  let (a, b, c, d) := (List.range 64).foldl (round msg) st
  ((a0 + a) % M32, (b0 + b) % M32, (c0 + c) % M32, (d0 + d) % M32)

/-- Little-endian bytes of a 64-bit length value. -/
def leBytes8 (n : Nat) : List Nat :=
  [n % 256, n / 2 ^ 8 % 256, n / 2 ^ 16 % 256, n / 2 ^ 24 % 256,
   n / 2 ^ 32 % 256, n / 2 ^ 40 % 256, n / 2 ^ 48 % 256, n / 2 ^ 56 % 256]

/-- Little-endian bytes of a 32-bit word. -/
def leBytes4 (n : Nat) : List Nat :=
  [n % 256, n / 2 ^ 8 % 256, n / 2 ^ 16 % 256, n / 2 ^ 24 % 256]

/-- MD5 padding: append `0x80`, zero bytes to reach 56 mod 64, then the
64-bit little-endian bit length. -/
def pad (msg : List Nat) : List Nat :=
  msg ++ [128] ++ List.replicate ((120 - (msg.length + 1) % 64) % 64) 0
      ++ leBytes8 (8 * msg.length % 2 ^ 64)

/-- Split a byte list into chunks of 64, carrying an accumulator
(structurally recursive so the kernel can evaluate it). -/
def chunk64 : List Nat → List Nat → List (List Nat)
  | [], acc => if acc.isEmpty then [] else [acc.reverse]
  | x :: rest, acc =>
    if acc.length == 63 then (x :: acc).reverse :: chunk64 rest []
    else chunk64 rest (x :: acc)

/-- Decode a 64-byte block into 16 little-endian 32-bit words. -/
def toWords : List Nat → List Nat
  | b0 :: b1 :: b2 :: b3 :: rest => (b0 + 256 * (b1 + 256 * (b2 + 256 * b3))) :: toWords rest
  | _ => []

/-- The 16 digest bytes of a byte message. -/
def digestBytes (msg : List Nat) : List Nat :=
  let blocks := chunk64 (pad msg) []
  let st := blocks.foldl (fun st blk => processBlock st (toWords blk))
    (1732584193, 4023233417, 2562383102, 271733878)
  leBytes4 st.1 ++ leBytes4 st.2.1 ++ leBytes4 st.2.2.1 ++ leBytes4 st.2.2.2

/-- Lowercase hex digit. -/
def hexDigit (n : Nat) : Char :=
  if n < 10 then Char.ofNat (48 + n) else Char.ofNat (87 + n)

/-- Two hex characters of a byte. -/
def byteHex (b : Nat) : List Char :=
  [hexDigit (b / 16 % 16), hexDigit (b % 16)]

/-- UTF-8 encoding of one character (Python `str.encode('utf-8')`). -/
def utf8Char (c : Char) : List Nat :=
  let n := c.toNat
  if n < 128 then [n]
  else if n < 2048 then [192 + n / 64, 128 + n % 64]
  else if n < 65536 then [224 + n / 4096, 128 + n / 64 % 64, 128 + n % 64]
  else [240 + n / 262144, 128 + n / 4096 % 64, 128 + n / 64 % 64, 128 + n % 64]

/-- UTF-8 bytes of a string. -/
def utf8 (s : String) : List Nat :=
  s.data.flatMap utf8Char

/-- `hashlib.md5(s.encode('utf-8')).hexdigest()`. -/
def hexdigest (s : String) : String :=
  String.mk ((digestBytes (utf8 s)).flatMap byteHex)

end MD5

/-! ## URL utilities

Embeddings of `urllib.parse.urlparse`'s `scheme`/`netloc` components (the
only parts `src/app.py` reads) and of the utilities `sanitize_url`,
`get_domain`, `is_internal_link` (`src/app.py` lines 46-63), plus a model
of `urllib.parse.urljoin` for the link-resolution call at line 352. -/

/-- CPython `scheme_chars`: characters allowed in a URL scheme after the
leading letter. -/
def isSchemeChar (c : Char) : Bool :=
  c.isAlphanum || c == '+' || c == '-' || c == '.'

/-- Split off the scheme as `urllib.parse.urlsplit` does: a leading
`letter (letter|digit|+|-|.)* :` prefix is the (lowercased) scheme;
otherwise the scheme is empty and the URL is untouched. -/
def splitScheme (cs : List Char) : List Char × List Char :=
  let pre := cs.takeWhile (fun c => c != ':')
  match pre with
  | [] => ([], cs)
  | c :: rest =>
    if pre.length < cs.length && c.isAlpha && rest.all isSchemeChar then
      (pre.map Char.toLower, cs.drop (pre.length + 1))
    else ([], cs)

/-- Split off the netloc as `urlsplit` does: present only after a leading
`//`, extending to the next `/`, `?` or `#`. Returns (netloc, remainder). -/
def netlocSplit (cs : List Char) : List Char × List Char :=
  match cs with
  | '/' :: '/' :: rest =>
    (rest.takeWhile (fun c => c != '/' && c != '?' && c != '#'),
     rest.dropWhile (fun c => c != '/' && c != '?' && c != '#'))
  | _ => ([], cs)

/-- `urlparse(url).scheme`. -/
def urlparse_scheme (url : String) : String :=
  String.mk (splitScheme url.data).1

/-- `urlparse(url).netloc`. -/
def urlparse_netloc (url : String) : String :=
  String.mk (netlocSplit (splitScheme url.data).2).1

/-- Everything after scheme and netloc: path, params, query and fragment as
one string (the portion `urllib.robotparser.RobotFileParser.can_fetch`
matches rules against). -/
def urlparse_rest (url : String) : String :=
  String.mk (netlocSplit (splitScheme url.data).2).2

/-- `sanitize_url` (`src/app.py` line 46): prepend `http://` when no
`http://`/`https://` prefix is present. -/
def sanitize_url (url : String) : String :=
  if pyStartsWith url "http://" || pyStartsWith url "https://" then url
  else "http://" ++ url

/-- `get_domain` (`src/app.py` line 53): `f"{parsed.scheme}://{parsed.netloc}"`. -/
def get_domain (url : String) : String :=
  urlparse_scheme url ++ "://" ++ urlparse_netloc url

/-- `is_internal_link` (`src/app.py` line 59): compares the two URLs'
`netloc` components only. -/
def is_internal_link (base_domain target_url : String) : Bool :=
  urlparse_netloc base_domain == urlparse_netloc target_url

/-- The base directory used when joining a relative reference: the base
path up to and including its last `/`, or `/` when the base path has none.
(Query and fragment of the base are cut first.) -/
def dirOf (rest : String) : String :=
  let path := rest.data.takeWhile (fun c => c != '?' && c != '#')
  let upto := (path.reverse.dropWhile (fun c => c != '/')).reverse
  if upto.isEmpty then "/" else String.mk upto

/-- Model of `urllib.parse.urljoin` covering the reference shapes the
crawler meets: absolute URLs are returned as given, scheme-relative and
root-relative references are resolved against the base's scheme/authority,
and other relative references are appended to the base's directory
(dot-segment normalization is not modelled). -/
def urljoin (base url : String) : String :=
  if base == "" then url
  else if url == "" then base
  else if urlparse_scheme url != "" then url
  else if pyStartsWith url "//" then urlparse_scheme base ++ ":" ++ url
  else if pyStartsWith url "/" then get_domain base ++ url
  else get_domain base ++ dirOf (urlparse_rest base) ++ url

/-! ## HTML document model and content extraction

BeautifulSoup parsing is embedded by taking the parsed document as the
input value: a `Doc` lists the content-bearing elements in document order
(`find_all` over the whole soup returns matching tags in document order),
together with the title text, the description meta tag's `content`
attribute, and the `href` values of anchors in document order.
`parse_html_static` (`src/app.py` lines 66-125) is then a pure function of
a `Doc`. -/

/-- A content block produced by extraction (the dicts appended to
`elements` in `parse_html_static`; the `'type'` strings
`"Heading {level}"`, `"Paragraph"`, `"List item"`, `"Table"`, `"Image"`
become constructors). -/
inductive Element where
  | heading (level : Nat) (content : String)
  | paragraph (content : String)
  | listItem (content : String)
  | table (rows : List (List String))
  | image (src alt : String)
deriving DecidableEq, Repr

/-- A parsed markup element as BeautifulSoup would surface it: heading tags
`h<level>`, paragraphs, lists with their item texts, tables with their
rows' cell texts, images with `src`/`alt` attributes. -/
inductive HtmlNode where
  | h (level : Nat) (text : String)
  | p (text : String)
  | ul (items : List String)
  | table (rows : List (List String))
  | img (src alt : String)
deriving DecidableEq, Repr

/-- A parsed HTML document. -/
structure Doc where
  nodes : List HtmlNode
  title : Option String
  metaDesc : Option String
  anchors : List String
deriving DecidableEq, Repr

/-- One pass of the heading loop body: `soup.find_all(f"h{level}")` keeps
the `h<level>` tags in document order; each with non-empty stripped text
becomes a `Heading <level>` element. -/
def headingsAtLevel (nodes : List HtmlNode) (level : Nat) : List Element :=
  nodes.filterMap fun n =>
    match n with
    | .h l t => if l == level && pyStrip t != "" then some (.heading level (pyStrip t)) else none
    | _ => none

/-- `for level in range(1,7): ...` — headings are collected level by level,
1 through 6. -/
def parse_headings (nodes : List HtmlNode) : List Element :=
  (List.range' 1 6).flatMap (headingsAtLevel nodes)

/-- Paragraph extraction: non-empty stripped text only. -/
def parse_paragraphs (nodes : List HtmlNode) : List Element :=
  nodes.filterMap fun n =>
    match n with
    | .p t => if pyStrip t != "" then some (.paragraph (pyStrip t)) else none
    | _ => none

/-- List extraction: each list item with non-empty stripped text becomes
its own `List item` element. -/
def parse_list_items (nodes : List HtmlNode) : List Element :=
  nodes.flatMap fun n =>
    match n with
    | .ul items =>
      items.filterMap fun li => if pyStrip li != "" then some (Element.listItem (pyStrip li)) else none
    | _ => []

/-- Table extraction: cells are stripped, rows with no cells are dropped,
a table with no surviving rows is omitted. -/
def parse_tables (nodes : List HtmlNode) : List Element :=
  nodes.filterMap fun n =>
    match n with
    | .table rows =>
      let rows_data := (rows.map (List.map pyStrip)).filter (fun r => !r.isEmpty)
      if !rows_data.isEmpty then some (.table rows_data) else none
    | _ => none

/-- Image extraction: non-empty `src` only; `alt` may be empty. -/
def parse_images (nodes : List HtmlNode) : List Element :=
  nodes.filterMap fun n =>
    match n with
    | .img src alt => if src != "" then some (.image src alt) else none
    | _ => none

/-- `parse_html_static` (`src/app.py` lines 66-125): the element list in
the order the source builds it (all headings, then paragraphs, list items,
tables, images), the stripped title text (empty when no title tag), and
the stripped description `content` attribute (empty when the tag or the
attribute is absent; an empty attribute is skipped by the source's
truthiness test, which yields the same empty result). -/
def parse_html_static (doc : Doc) : List Element × String × String :=
  (parse_headings doc.nodes ++ parse_paragraphs doc.nodes ++ parse_list_items doc.nodes
     ++ parse_tables doc.nodes ++ parse_images doc.nodes,
   (doc.title.map pyStrip).getD "",
   pyStrip (doc.metaDesc.getD ""))

/-- The text the content hash is computed over: the contents of all
`Heading *` and `Paragraph` elements, in element order (the
`combined_text` list of `compute_text_hash`). -/
def hashTexts (elements : List Element) : List String :=
  elements.filterMap fun e =>
    match e with
    | .heading _ c => some c
    | .paragraph c => some c
    | _ => none

/-- `compute_text_hash` (`src/app.py` lines 229-238): join the contents of
all `Heading *` and `Paragraph` elements with newlines and return the MD5
hex digest of the UTF-8 bytes. -/
def compute_text_hash (elements : List Element) : String :=
  let combined_text := elements.filterMap fun e =>
    match e with
    | .heading _ c => some c
    | .paragraph c => some c
    | _ => none
  MD5.hexdigest (joinWith "\n" combined_text)

/-! ## Robots policy gate

`src/app.py` builds one `urllib.robotparser.RobotFileParser` per crawl
(lines 281-286), attempts `rp.read()` inside a bare `try/except`, and
queries it through `should_crawl` (lines 241-245).  The parser state and
the behaviour of `read`/`can_fetch` follow the CPython implementation:

* `can_fetch` returns `False` when `disallow_all` is set, `True` when
  `allow_all` is set, and — crucially — `False` whenever the file was
  never successfully read (`last_checked` unset); otherwise the first
  rule whose path is `*` or a prefix of the URL's path decides, default
  allow.
* `read` sets `disallow_all` on HTTP 401/403, `allow_all` on other 4xx,
  parses the body on success (which sets `last_checked`), and lets any
  other error (network failure, 5xx) propagate — `src/app.py` catches it
  with `except: pass`, leaving the parser in its freshly-constructed
  state.

Rules are modelled as `(path-prefix, allowance)` pairs of the `*`
user-agent entry, first match wins (CPython `Entry.allowance`); URL
percent-quoting is not modelled.  The parser's site-declared crawl delay
(`Crawl-delay`, exposed by CPython as `crawl_delay('*')`) is carried in
the state so that theorems can speak about it. -/

/-- State of a `urllib.robotparser.RobotFileParser`. -/
structure RobotFileParser where
  disallow_all : Bool
  allow_all : Bool
  last_checked : Bool
  rules : List (String × Bool)
  crawl_delay : Option Nat
deriving DecidableEq, Repr

/-- Outcome of the `rp.read()` call: a successful fetch+parse of
robots.txt, an HTTP error response, or an error that makes `read` raise
(network failure, invalid response, 5xx status). -/
inductive ReadResult where
  | success (rules : List (String × Bool)) (delay : Option Nat)
  | httpError (code : Nat)
  | raised
deriving DecidableEq, Repr

/-- `rp = RobotFileParser(); rp.set_url(...); try: rp.read() except: pass`
(`src/app.py` lines 281-286).  On `raised` the exception is swallowed and
the parser keeps its initial state (`last_checked` unset). -/
def tryReadRobots : ReadResult → RobotFileParser
  | .success rules d => ⟨false, false, true, rules, d⟩
  | .httpError c =>
    if c == 401 || c == 403 then ⟨true, false, false, [], none⟩
    else if 400 ≤ c && c < 500 then ⟨false, true, false, [], none⟩
    else ⟨false, false, false, [], none⟩
  | .raised => ⟨false, false, false, [], none⟩

/-- The path string `can_fetch` matches rules against: everything after
scheme and netloc, `/` when empty. -/
def robotsPath (url : String) : String :=
  let rest := urlparse_rest url
  if rest == "" then "/" else rest

/-- `RobotFileParser.can_fetch('*', url)` per the CPython implementation
described above. -/
def can_fetch (rp : RobotFileParser) (url : String) : Bool :=
  if rp.disallow_all then false
  else if rp.allow_all then true
  else if !rp.last_checked then false
  else
    match rp.rules.find? (fun r => r.1 == "*" || pyStartsWith (robotsPath url) r.1) with
    | some r => r.2
    | none => true

/-- `should_crawl` (`src/app.py` lines 241-245). -/
def should_crawl (url : String) (rp : RobotFileParser) (respect_robots : Bool) : Bool :=
  if !respect_robots then true
  else can_fetch rp url

/-! ## The BFS crawl (`crawl_site`, `src/app.py` lines 248-372)

The record value stored per URL, the loop state, and the loop itself.
The network is a parameter `world : String → Option Doc`: `world url` is
the parsed document when fetching `url` succeeds and `none` when the
fetch fails (request exception, non-success response, or empty body —
all collapsed by the source into `html = None`).  The `time.sleep(delay)`
calls are recorded in a trace `sleeps` so that theorems can speak about
the inter-request delay actually applied. -/

/-- The per-URL record status: `200` for a fetched page (the source
initializes `status_code = 200` and never changes it on success),
`'error'`, or `'disallowed_by_robots'`. -/
inductive Status where
  | code (n : Nat)
  | error
  | disallowed
deriving DecidableEq, Repr

/-- One `data_map` record (`src/app.py` lines 264-272). -/
structure PageInfo where
  title : String
  meta_description : String
  elements : List Element
  links : List String
  status : Status
  hash : String
  depth : Nat
deriving DecidableEq, Repr

/-- The record set: a Python dict embedded as an insertion-ordered
association list. -/
abbrev DataMap := List (String × PageInfo)

/-- Python dict assignment `m[k] = v`: overwrite in place when the key is
present, append otherwise. -/
def dictInsert (m : DataMap) (k : String) (v : PageInfo) : DataMap :=
  if m.any (fun p => p.1 == k) then m.map (fun p => if p.1 == k then (k, v) else p)
  else m ++ [(k, v)]

/-- Python dict lookup `m[k]` (first matching key; keys are unique in any
map built by `dictInsert`). -/
def dictGet? (m : DataMap) (k : String) : Option PageInfo :=
  (m.find? (fun p => p.1 == k)).map Prod.snd

/-- The keys of the record set, in insertion order. -/
def keysOf (m : DataMap) : List String := m.map Prod.fst

/-- The record stored for a robots-disallowed or failed URL
(`src/app.py` lines 298-306 and 334-342): everything empty apart from
status and depth. -/
def emptyRecord (st : Status) (depth : Nat) : PageInfo :=
  ⟨"", "", [], [], st, "", depth⟩

/-- Result of a crawl: the record set, the visited set (as the list of
URLs in the order they were marked visited, newest first), and the trace
of `time.sleep` durations. -/
structure CrawlResult where
  data_map : DataMap
  visited : List String
  sleeps : List Nat
deriving DecidableEq, Repr

/-- The `while queue and len(visited) < max_pages:` loop of `crawl_site`
(`src/app.py` lines 288-370), one constructor-match/branch per statement:
pop the front entry; skip if already visited; mark visited; skip when
over `max_depth`; store a `disallowed_by_robots` record when the policy
gate refuses; store an `'error'` record and sleep when the fetch fails;
otherwise parse, hash, store the `200` record, enqueue the unvisited
internal links, and sleep. -/
def crawl_loop (world : String → Option Doc) (max_pages max_depth delay : Nat)
    (respect_robots : Bool) (rp : RobotFileParser) (base_domain : String)
    (queue : List (String × Nat)) (visited : List String)
    (data_map : DataMap) (sleeps : List Nat) : CrawlResult :=
  match queue with
  | [] => ⟨data_map, visited, sleeps⟩
  | (current_url, depth) :: rest =>
    if hcap : visited.length < max_pages then
      if current_url ∈ visited then
        crawl_loop world max_pages max_depth delay respect_robots rp base_domain
          rest visited data_map sleeps
      else
        if depth > max_depth then
          crawl_loop world max_pages max_depth delay respect_robots rp base_domain
            rest (current_url :: visited) data_map sleeps
        else if !should_crawl current_url rp respect_robots then
          crawl_loop world max_pages max_depth delay respect_robots rp base_domain
            rest (current_url :: visited)
            (dictInsert data_map current_url (emptyRecord .disallowed depth)) sleeps
        else
          match world current_url with
          | none =>
            crawl_loop world max_pages max_depth delay respect_robots rp base_domain
              rest (current_url :: visited)
              (dictInsert data_map current_url (emptyRecord .error depth))
              (sleeps ++ [delay])
          | some doc =>
            let parsed := parse_html_static doc
            let found_links := doc.anchors.map (fun a => urljoin current_url a)
            let info : PageInfo :=
              ⟨parsed.2.1, parsed.2.2, parsed.1, found_links, .code 200,
               compute_text_hash parsed.1, depth⟩
            let newEntries :=
              (found_links.filter (fun lk =>
                is_internal_link base_domain lk && !((current_url :: visited).contains lk))).map
                (fun lk => (lk, depth + 1))
            crawl_loop world max_pages max_depth delay respect_robots rp base_domain
              (rest ++ newEntries) (current_url :: visited)
              (dictInsert data_map current_url info) (sleeps ++ [delay])
    else ⟨data_map, visited, sleeps⟩
termination_by (max_pages - visited.length, queue.length)
decreasing_by
  · apply Prod.Lex.right
    simp
  · apply Prod.Lex.left
    simp only [List.length_cons]
    omega
  · apply Prod.Lex.left
    simp only [List.length_cons]
    omega
  · apply Prod.Lex.left
    simp only [List.length_cons]
    omega
  · apply Prod.Lex.left
    simp only [List.length_cons]
    omega

/-- `crawl_site` (`src/app.py` lines 248-372): sanitize the seed, fix the
base domain, build the robots parser (swallowing read errors), and run
the BFS loop from `deque([(start_url, 0)])` with empty visited set and
record map. -/
def crawl_site (world : String → Option Doc) (robots : ReadResult) (start_url : String)
    (max_pages max_depth delay : Nat) (respect_robots : Bool) : CrawlResult :=
  let start := sanitize_url start_url
  let base_domain := get_domain start
  let rp := tryReadRobots robots
  crawl_loop world max_pages max_depth delay respect_robots rp base_domain
    [(start, 0)] [] [] []

/-! ## Post-crawl analysis (`src/app.py` lines 378-403) -/

/-- One iteration of the grouping loop in `detect_duplicates`: skip empty
hashes, append the URL to its hash's group (`defaultdict(list)`
preserves first-appearance order of keys). -/
def groupStep (acc : List (String × List String)) (p : String × PageInfo) :
    List (String × List String) :=
  if p.2.hash == "" then acc
  else if acc.any (fun g => g.1 == p.2.hash) then
    acc.map (fun g => if g.1 == p.2.hash then (g.1, g.2 ++ [p.1]) else g)
  else acc ++ [(p.2.hash, [p.1])]

/-- `detect_duplicates` (`src/app.py` lines 378-389): group URLs by
non-empty hash, report the groups with more than one member. -/
def detect_duplicates (data_map : DataMap) : List (List String) :=
  let hash_map := data_map.foldl groupStep []
  hash_map.filterMap (fun g => if 1 < g.2.length then some g.2 else none)

/-- `find_broken_links` (`src/app.py` lines 392-403): for every record
whose status is not `'error'`, report each of its links that is a key of
the record set whose record's status is `'error'`. -/
def find_broken_links (data_map : DataMap) : List (String × String) :=
  let known_urls := keysOf data_map
  data_map.flatMap fun p =>
    if p.2.status == Status.error then []
    else p.2.links.filterMap fun lk =>
      if known_urls.contains lk then
        match dictGet? data_map lk with
        | some info => if info.status == Status.error then some (p.1, lk) else none
        | none => none
      else none

/-! ## Auxiliary definitions for the verification -/

/-- Project a heading element to its `(level, text)` pair. -/
def headOf : Element → Option (Nat × String)
  | .heading l t => some (l, t)
  | _ => none

/-- The heading blocks of an extracted element list, as `(level, text)`
pairs in extraction order. -/
def headingPairs (elements : List Element) : List (Nat × String) :=
  elements.filterMap headOf

/-- The `(level, trimmed text)` pairs of the `h<level>` tags of a node
list, in document order, empty trimmed texts skipped — the reference
against which the extractor's heading output is compared. -/
def docHeads (nodes : List HtmlNode) (level : Nat) : List (Nat × String) :=
  nodes.filterMap fun n =>
    match n with
    | .h l t => if l == level && pyStrip t != "" then some (level, pyStrip t) else none
    | _ => none

/-- The group of URLs recorded for a hash in the grouping accumulator of
`detect_duplicates` (the `defaultdict(list)` lookup: first entry with the
key, `[]` when absent). -/
def groupOf : List (String × List String) → String → List String
  | [], _ => []
  | g :: rest, h => if g.1 == h then g.2 else groupOf rest h

/-- The state invariant maintained by the crawl loop: the record count is
bounded by the visited count, the visited count by the page cap, record
keys are visited, no URL is visited twice, record keys are unique,
recorded depths respect the depth cap, every record's status is one of
the three values the source produces, disallowed/error records are empty
apart from status and depth, and every applied sleep is the configured
delay. -/
structure LoopInv (max_pages max_depth delay : Nat) (visited : List String)
    (dm : DataMap) (sleeps : List Nat) : Prop where
  len_le : dm.length ≤ visited.length
  vis_le : visited.length ≤ max_pages
  keys_sub : ∀ k ∈ keysOf dm, k ∈ visited
  vis_nodup : visited.Nodup
  keys_nodup : (keysOf dm).Nodup
  depth_le : ∀ p ∈ dm, p.2.depth ≤ max_depth
  status_cases : ∀ p ∈ dm, p.2.status = Status.code 200 ∨ p.2.status = Status.error ∨
    p.2.status = Status.disallowed
  failed_empty : ∀ p ∈ dm, p.2.status = Status.error ∨ p.2.status = Status.disallowed →
    p.2.title = "" ∧ p.2.meta_description = "" ∧ p.2.elements = [] ∧
    p.2.links = [] ∧ p.2.hash = ""
  sleeps_delay : ∀ t ∈ sleeps, t = delay

/-! ## Concrete fixtures used by witnesses and counterexamples

A three-page site on `a.com`: the seed page links to `/b` (an empty page)
and `/c` (whose fetch fails). -/

/-- The seed page of the fixture site. -/
def docA : Doc :=
  ⟨[.h 1 "Welcome", .p "Hello"], some "A", none, ["http://a.com/b", "http://a.com/c"]⟩

/-- An empty page (no content elements, no links). -/
def docB : Doc := ⟨[], none, none, []⟩

/-- The fixture world: the seed and `/b` fetch successfully, everything
else (in particular `/c`) fails. -/
def world0 : String → Option Doc := fun u =>
  if u = "http://a.com/" then some docA
  else if u = "http://a.com/b" then some docB
  else none

/-- A document whose markup has an `h2` before an `h1`. -/
def doc8 : Doc := ⟨[.h 2 "A", .h 1 "B"], none, none, []⟩

/-- A small record set with one ok page linking to a failed page, a
robots-disallowed page, and an un-crawled link target (`/x`). -/
def dm5 : DataMap :=
  [("http://s.com/", ⟨"S", "", [], ["http://s.com/t", "http://s.com/x"], .code 200, "h1", 0⟩),
   ("http://s.com/t", emptyRecord .error 1),
   ("http://s.com/d", emptyRecord .disallowed 1)]

/-- A small record set with two pages of identical non-empty hash, one
page with a different hash, and one errored page with empty hash. -/
def dm6 : DataMap :=
  [("http://s.com/", ⟨"", "", [], [], .code 200, "h1", 0⟩),
   ("http://s.com/b", ⟨"", "", [], [], .code 200, "h2", 1⟩),
   ("http://s.com/c", ⟨"", "", [], [], .code 200, "h1", 1⟩),
   ("http://s.com/e", emptyRecord .error 1)]

/-- The record the crawl produces for the fixture seed page. -/
def infoA : PageInfo :=
  ⟨"A", "", [.heading 1 "Welcome", .paragraph "Hello"],
   ["http://a.com/b", "http://a.com/c"], .code 200,
   "9baa70bb627ce74fcd8db4ede4745d0f", 0⟩

/-- The record the crawl produces for the empty fixture page `/b`:
fetched successfully, no text, hash of the empty string. -/
def infoB : PageInfo :=
  ⟨"", "", [], [], .code 200, "d41d8cd98f00b204e9800998ecf8427e", 1⟩

/-- The record set the fixture crawl produces at depth cap 3. -/
def dmW0 : DataMap :=
  [("http://a.com/", infoA), ("http://a.com/b", infoB),
   ("http://a.com/c", emptyRecord .error 1)]

/-! ## Crawl-loop invariants -/

theorem keysOf_append (m : DataMap) (k : String) (v : PageInfo) :
    keysOf (m ++ [(k, v)]) = keysOf m ++ [k] := by
  simp [keysOf]

theorem dictInsert_of_not_mem (m : DataMap) (k : String) (v : PageInfo)
    (h : k ∉ keysOf m) : dictInsert m k v = m ++ [(k, v)] := by
  have hany : ¬ m.any (fun p => p.1 == k) = true := by
    simp only [List.any_eq_true]
    rintro ⟨p, hp, he⟩
    refine h ?_
    simp only [keysOf, List.mem_map]
    exact ⟨p, hp, by simpa using he⟩
  simp [dictInsert, hany]

/-- Pushing a fresh record for an unvisited URL preserves the invariant
(shared by the three record-creating branches of the loop). -/
theorem LoopInv.push (mp md delay : Nat) (visited : List String) (dm : DataMap)
    (sleeps : List Nat) (inv : LoopInv mp md delay visited dm sleeps)
    (u : String) (info : PageInfo) (hcap : visited.length < mp) (hu : u ∉ visited)
    (hdepth : info.depth ≤ md)
    (hstatus : info.status = Status.code 200 ∨ info.status = Status.error ∨
      info.status = Status.disallowed)
    (hempty : info.status = Status.error ∨ info.status = Status.disallowed →
      info.title = "" ∧ info.meta_description = "" ∧ info.elements = [] ∧
      info.links = [] ∧ info.hash = "") :
    LoopInv mp md delay (u :: visited) (dictInsert dm u info) sleeps := by
  have hku : u ∉ keysOf dm := fun hk => hu (inv.keys_sub u hk)
  rw [dictInsert_of_not_mem dm u info hku]
  refine ⟨?_, ?_, ?_, ?_, ?_, ?_, ?_, ?_, inv.sleeps_delay⟩
  · simpa using Nat.add_le_add_right inv.len_le 1
  · simpa using hcap
  · intro k hk
    rw [keysOf_append] at hk
    rcases List.mem_append.mp hk with hk | hk
    · exact List.mem_cons_of_mem _ (inv.keys_sub k hk)
    · simp only [List.mem_singleton] at hk
      simp [hk]
  · exact List.nodup_cons.mpr ⟨hu, inv.vis_nodup⟩
  · rw [keysOf_append, ← List.concat_eq_append]
    exact List.Nodup.concat hku inv.keys_nodup
  · intro p hp
    rcases List.mem_append.mp hp with hp | hp
    · exact inv.depth_le p hp
    · simp only [List.mem_singleton] at hp
      simpa [hp] using hdepth
  · intro p hp
    rcases List.mem_append.mp hp with hp | hp
    · exact inv.status_cases p hp
    · simp only [List.mem_singleton] at hp
      simpa [hp] using hstatus
  · intro p hp
    rcases List.mem_append.mp hp with hp | hp
    · exact inv.failed_empty p hp
    · simp only [List.mem_singleton] at hp
      subst hp
      simpa using hempty

section StepLemmas

variable (world : String → Option Doc) (mp md delay : Nat) (rr : Bool)
  (rp : RobotFileParser) (bd : String)

/-- Loop exit on an empty frontier. -/
theorem crawl_loop_nil (visited : List String) (dm : DataMap) (sleeps : List Nat) :
    crawl_loop world mp md delay rr rp bd [] visited dm sleeps = ⟨dm, visited, sleeps⟩ := by
  rw [crawl_loop]

/-- Loop exit when the page cap is reached. -/
theorem crawl_loop_cap (visited : List String) (dm : DataMap) (sleeps : List Nat)
    (u : String) (d : Nat) (rest : List (String × Nat))
    (hcap : ¬ visited.length < mp) :
    crawl_loop world mp md delay rr rp bd ((u, d) :: rest) visited dm sleeps
      = ⟨dm, visited, sleeps⟩ := by
  rw [crawl_loop]
  rw [dif_neg hcap]

/-- Skipping an already-visited URL. -/
theorem crawl_loop_dup (visited : List String) (dm : DataMap) (sleeps : List Nat)
    (u : String) (d : Nat) (rest : List (String × Nat))
    (hcap : visited.length < mp) (hmem : u ∈ visited) :
    crawl_loop world mp md delay rr rp bd ((u, d) :: rest) visited dm sleeps
      = crawl_loop world mp md delay rr rp bd rest visited dm sleeps := by
  rw [crawl_loop]
  rw [dif_pos hcap, if_pos hmem]

/-- Skipping an over-depth URL: it is marked visited but no record is
produced. -/
theorem crawl_loop_deep (visited : List String) (dm : DataMap) (sleeps : List Nat)
    (u : String) (d : Nat) (rest : List (String × Nat))
    (hcap : visited.length < mp) (hmem : u ∉ visited) (hd : d > md) :
    crawl_loop world mp md delay rr rp bd ((u, d) :: rest) visited dm sleeps
      = crawl_loop world mp md delay rr rp bd rest (u :: visited) dm sleeps := by
  rw [crawl_loop]
  rw [dif_pos hcap, if_neg hmem, if_pos hd]

/-- A robots-disallowed URL: an empty `disallowed_by_robots` record is
stored and no sleep happens. -/
theorem crawl_loop_disallowed (visited : List String) (dm : DataMap) (sleeps : List Nat)
    (u : String) (d : Nat) (rest : List (String × Nat))
    (hcap : visited.length < mp) (hmem : u ∉ visited) (hd : ¬ d > md)
    (hs : should_crawl u rp rr = false) :
    crawl_loop world mp md delay rr rp bd ((u, d) :: rest) visited dm sleeps
      = crawl_loop world mp md delay rr rp bd rest (u :: visited)
          (dictInsert dm u (emptyRecord .disallowed d)) sleeps := by
  rw [crawl_loop]
  rw [dif_pos hcap, if_neg hmem, if_neg hd, if_pos (by simp [hs])]

/-- A failed fetch: an empty `'error'` record is stored and the configured
delay is slept. -/
theorem crawl_loop_fetch_error (visited : List String) (dm : DataMap) (sleeps : List Nat)
    (u : String) (d : Nat) (rest : List (String × Nat))
    (hcap : visited.length < mp) (hmem : u ∉ visited) (hd : ¬ d > md)
    (hs : should_crawl u rp rr = true) (hw : world u = none) :
    crawl_loop world mp md delay rr rp bd ((u, d) :: rest) visited dm sleeps
      = crawl_loop world mp md delay rr rp bd rest (u :: visited)
          (dictInsert dm u (emptyRecord .error d)) (sleeps ++ [delay]) := by
  rw [crawl_loop]
  rw [dif_pos hcap, if_neg hmem, if_neg hd, if_neg (by simp [hs]), hw]

/-- A successful fetch: extraction, hashing, record storage, enqueueing of
unvisited internal links, and the configured sleep. -/
theorem crawl_loop_ok (visited : List String) (dm : DataMap) (sleeps : List Nat)
    (u : String) (d : Nat) (rest : List (String × Nat)) (doc : Doc)
    (hcap : visited.length < mp) (hmem : u ∉ visited) (hd : ¬ d > md)
    (hs : should_crawl u rp rr = true) (hw : world u = some doc) :
    crawl_loop world mp md delay rr rp bd ((u, d) :: rest) visited dm sleeps
      = crawl_loop world mp md delay rr rp bd
          (rest ++ ((doc.anchors.map (fun a => urljoin u a)).filter (fun lk =>
              is_internal_link bd lk && !((u :: visited).contains lk))).map
              (fun lk => (lk, d + 1)))
          (u :: visited)
          (dictInsert dm u
            ⟨(parse_html_static doc).2.1, (parse_html_static doc).2.2,
             (parse_html_static doc).1, doc.anchors.map (fun a => urljoin u a),
             .code 200, compute_text_hash (parse_html_static doc).1, d⟩)
          (sleeps ++ [delay]) := by
  rw [crawl_loop]
  rw [dif_pos hcap, if_neg hmem, if_neg hd, if_neg (by simp [hs]), hw]

end StepLemmas

/-- The master invariant lemma: starting the loop from a state satisfying
`LoopInv` yields a state satisfying `LoopInv`. -/
theorem crawl_loop_inv (world : String → Option Doc) (mp md delay : Nat)
    (rr : Bool) (rp : RobotFileParser) (bd : String) :
    ∀ (queue : List (String × Nat)) (visited : List String) (dm : DataMap)
      (sleeps : List Nat), LoopInv mp md delay visited dm sleeps →
    LoopInv mp md delay
      (crawl_loop world mp md delay rr rp bd queue visited dm sleeps).visited
      (crawl_loop world mp md delay rr rp bd queue visited dm sleeps).data_map
      (crawl_loop world mp md delay rr rp bd queue visited dm sleeps).sleeps := by
  intro queue visited dm sleeps
  induction queue, visited, dm, sleeps using crawl_loop.induct world mp md delay rr rp bd with
  | case1 visited dm sleeps =>
    intro inv
    rw [crawl_loop_nil]
    exact inv
  | case2 visited dm sleeps u d rest hcap hmem ih =>
    intro inv
    rw [crawl_loop_dup world mp md delay rr rp bd visited dm sleeps u d rest hcap hmem]
    exact ih inv
  | case3 visited dm sleeps u d rest hcap hmem hd ih =>
    intro inv
    rw [crawl_loop_deep world mp md delay rr rp bd visited dm sleeps u d rest hcap hmem hd]
    refine ih ⟨Nat.le_succ_of_le inv.len_le, by simpa using hcap, ?_, ?_,
      inv.keys_nodup, inv.depth_le, inv.status_cases, inv.failed_empty, inv.sleeps_delay⟩
    · exact fun k hk => List.mem_cons_of_mem _ (inv.keys_sub k hk)
    · exact List.nodup_cons.mpr ⟨hmem, inv.vis_nodup⟩
  | case4 visited dm sleeps u d rest hcap hmem hd hs ih =>
    intro inv
    rw [crawl_loop_disallowed world mp md delay rr rp bd visited dm sleeps u d rest hcap hmem hd
      (by simpa using hs)]
    refine ih (inv.push _ _ _ _ _ _ u _ hcap hmem (by simpa using Nat.le_of_not_lt hd)
      (Or.inr (Or.inr rfl)) (fun _ => by simp [emptyRecord]))
  | case5 visited dm sleeps u d rest hcap hmem hd hs hw ih =>
    intro inv
    rw [crawl_loop_fetch_error world mp md delay rr rp bd visited dm sleeps u d rest hcap hmem hd
      (by simpa using hs) hw]
    refine ih ?_
    have inv' : LoopInv mp md delay visited dm (sleeps ++ [delay]) :=
      ⟨inv.len_le, inv.vis_le, inv.keys_sub, inv.vis_nodup, inv.keys_nodup, inv.depth_le,
       inv.status_cases, inv.failed_empty, ?_⟩
    · exact inv'.push _ _ _ _ _ _ u _ hcap hmem (by simpa using Nat.le_of_not_lt hd)
        (Or.inr (Or.inl rfl)) (fun _ => by simp [emptyRecord])
    · intro t ht
      rcases List.mem_append.mp ht with ht | ht
      · exact inv.sleeps_delay t ht
      · simpa using ht
  | case6 visited dm sleeps u d rest hcap hmem hd hs doc hw parsed found_links info newEntries ih =>
    intro inv
    rw [crawl_loop_ok world mp md delay rr rp bd visited dm sleeps u d rest doc hcap hmem hd
      (by simpa using hs) hw]
    refine ih ?_
    have inv' : LoopInv mp md delay visited dm (sleeps ++ [delay]) :=
      ⟨inv.len_le, inv.vis_le, inv.keys_sub, inv.vis_nodup, inv.keys_nodup, inv.depth_le,
       inv.status_cases, inv.failed_empty, ?_⟩
    · exact inv'.push _ _ _ _ _ _ u _ hcap hmem (by simpa using Nat.le_of_not_lt hd)
        (Or.inl rfl) (by intro h; cases h <;> simp_all)
    · intro t ht
      rcases List.mem_append.mp ht with ht | ht
      · exact inv.sleeps_delay t ht
      · simpa using ht
  | case7 visited dm sleeps u d rest hcap =>
    intro inv
    rw [crawl_loop_cap world mp md delay rr rp bd visited dm sleeps u d rest hcap]
    exact inv

/-- The loop invariant holds of the initial crawl state. -/
theorem LoopInv.initial (mp md delay : Nat) : LoopInv mp md delay [] [] [] := by
  refine ⟨?_, ?_, ?_, ?_, ?_, ?_, ?_, ?_, ?_⟩ <;> simp [keysOf]

/-- `crawl_site` maintains the loop invariant. -/
theorem crawl_site_inv (world : String → Option Doc) (robots : ReadResult)
    (start : String) (mp md delay : Nat) (rr : Bool) :
    LoopInv mp md delay (crawl_site world robots start mp md delay rr).visited
      (crawl_site world robots start mp md delay rr).data_map
      (crawl_site world robots start mp md delay rr).sleeps :=
  crawl_loop_inv world mp md delay rr (tryReadRobots robots)
    (get_domain (sanitize_url start)) [(sanitize_url start, 0)] [] [] []
    (LoopInv.initial mp md delay)

/-! ## Concrete crawl evaluations over the fixture site -/

/-- Hash of the fixture seed page's heading+paragraph text. -/
theorem hash_fixture_A :
    compute_text_hash [Element.heading 1 "Welcome", Element.paragraph "Hello"]
      = "9baa70bb627ce74fcd8db4ede4745d0f" := by decide

/-- Hash of an element list with no heading and no paragraph: the MD5
digest of the empty string. -/
theorem hash_empty_list :
    compute_text_hash [] = "d41d8cd98f00b204e9800998ecf8427e" := by decide

set_option maxHeartbeats 4000000 in
/-- Full evaluation of the fixture crawl (cap 10, depth 3). -/
theorem w0_eval :
    crawl_site world0 .raised "http://a.com/" 10 3 1 false
      = ⟨dmW0, ["http://a.com/c", "http://a.com/b", "http://a.com/"], [1, 1, 1]⟩ := by
  simp +decide [crawl_site, crawl_loop, world0, sanitize_url, get_domain, is_internal_link,
    dictInsert, emptyRecord, should_crawl, tryReadRobots, can_fetch, docA, docB, pyStartsWith,
    urljoin, urlparse_scheme, urlparse_netloc, splitScheme, netlocSplit, isSchemeChar,
    dmW0, infoA, infoB]

set_option maxHeartbeats 4000000 in
/-- Full evaluation of the fixture crawl with depth cap 0: the links of
the seed are dequeued, marked visited, and dropped without records. -/
theorem w0_depth0_eval :
    crawl_site world0 .raised "http://a.com/" 10 0 1 false
      = ⟨[("http://a.com/", infoA)],
         ["http://a.com/c", "http://a.com/b", "http://a.com/"], [1]⟩ := by
  simp +decide [crawl_site, crawl_loop, world0, sanitize_url, get_domain, is_internal_link,
    dictInsert, emptyRecord, should_crawl, tryReadRobots, can_fetch, docA, docB, pyStartsWith,
    urljoin, urlparse_scheme, urlparse_netloc, splitScheme, netlocSplit, isSchemeChar, infoA]

set_option maxHeartbeats 4000000 in
/-- Full evaluation of the fixture crawl with robots compliance enabled
and a successfully read robots.txt that declares `Crawl-delay: 5` but no
rules: the declared delay plays no role. -/
theorem w0_robots_eval :
    crawl_site world0 (.success [] (some 5)) "http://a.com/" 10 3 1 true
      = ⟨dmW0, ["http://a.com/c", "http://a.com/b", "http://a.com/"], [1, 1, 1]⟩ := by
  simp +decide [crawl_site, crawl_loop, world0, sanitize_url, get_domain, is_internal_link,
    dictInsert, emptyRecord, should_crawl, tryReadRobots, can_fetch, robotsPath, docA, docB,
    pyStartsWith, urljoin, urlparse_scheme, urlparse_netloc, splitScheme, netlocSplit,
    isSchemeChar, urlparse_rest, dmW0, infoA, infoB]

set_option maxHeartbeats 4000000 in
/-- Evaluation of the fixture crawl with robots compliance enabled after
a robots.txt read that raised: the gate denies everything, so the seed
gets a `disallowed_by_robots` record, no link is followed, and no sleep
happens — but the crawl completes normally. -/
theorem w0_raised_respect_eval :
    crawl_site world0 .raised "http://a.com/" 10 3 1 true
      = ⟨[("http://a.com/", emptyRecord .disallowed 0)], ["http://a.com/"], []⟩ := by
  simp +decide [crawl_site, crawl_loop, world0, sanitize_url, get_domain,
    dictInsert, emptyRecord, should_crawl, tryReadRobots, can_fetch, pyStartsWith,
    urlparse_scheme, urlparse_netloc, splitScheme, netlocSplit, isSchemeChar]

/-- `compute_text_hash` is the digest of the newline-joined
heading+paragraph texts. -/
theorem compute_text_hash_eq (elements : List Element) :
    compute_text_hash elements = MD5.hexdigest (joinWith "\n" (hashTexts elements)) := rfl

/-- The MD5 digest always has 16 bytes. -/
theorem digestBytes_length (msg : List Nat) : (MD5.digestBytes msg).length = 16 := by
  simp [MD5.digestBytes, MD5.leBytes4]

/-- Flat-mapping `byteHex` doubles the length. -/
theorem flatMap_byteHex_length (l : List Nat) : (l.flatMap MD5.byteHex).length = 2 * l.length := by
  induction l with
  | nil => simp
  | cons a l ih => simp [MD5.byteHex, ih]; omega

/-- An MD5 hex digest always has 32 characters. -/
theorem hexdigest_length (s : String) : (MD5.hexdigest s).length = 32 := by
  have h1 : (MD5.hexdigest s).length = ((MD5.digestBytes (MD5.utf8 s)).flatMap MD5.byteHex).length := rfl
  rw [h1, flatMap_byteHex_length, digestBytes_length]

/-- An MD5 hex digest is never the empty string. -/
theorem hexdigest_ne_empty (s : String) : MD5.hexdigest s ≠ "" := by
  intro h
  have := hexdigest_length s
  rw [h] at this
  simp at this

/-! ## Claims -/

/-- Claim C1: for every seed URL and configuration, the record set
returned by the crawl has at most `max_pages` entries, and every record
in it has `depth ≤ max_depth`. -/
theorem crawl_record_cap_and_depth (world : String → Option Doc) (robots : ReadResult)
    (start : String) (mp md delay : Nat) (rr : Bool) :
    (crawl_site world robots start mp md delay rr).data_map.length ≤ mp ∧
    ∀ p ∈ (crawl_site world robots start mp md delay rr).data_map, p.2.depth ≤ md := by
  have h := crawl_site_inv world robots start mp md delay rr
  exact ⟨le_trans h.len_le h.vis_le, h.depth_le⟩

/-- Witness for C1 at the fixture crawl. -/
theorem crawl_record_cap_and_depth_witness :
    (crawl_site world0 .raised "http://a.com/" 10 3 1 false).data_map.length ≤ 10 ∧
    (emptyRecord .error 1).depth ≤ 3 := by
  have h := crawl_record_cap_and_depth world0 .raised "http://a.com/" 10 3 1 false
  exact ⟨h.1, h.2 ("http://a.com/c", emptyRecord .error 1) (by rw [w0_eval]; decide)⟩

/-- Claim C2 counterexample: with `max_depth = 0` the seed's links are
dequeued and marked visited without receiving records, so the record
set's keys are a strict subset of the visited set. -/
theorem crawl_keys_eq_visited_counterexample :
    "http://a.com/b" ∈ (crawl_site world0 .raised "http://a.com/" 10 0 1 false).visited ∧
    "http://a.com/b" ∉ keysOf (crawl_site world0 .raised "http://a.com/" 10 0 1 false).data_map := by
  rw [w0_depth0_eval]
  decide

/-- Claim C2 (amended): every record's key was marked visited, no URL is
visited twice, and no URL receives two records; but the visited set may
strictly contain the key set, because a URL dequeued at a depth beyond
`max_depth` is marked visited without receiving a record. -/
theorem crawl_keys_subset_visited (world : String → Option Doc) (robots : ReadResult)
    (start : String) (mp md delay : Nat) (rr : Bool) :
    (∀ k ∈ keysOf (crawl_site world robots start mp md delay rr).data_map,
      k ∈ (crawl_site world robots start mp md delay rr).visited) ∧
    (crawl_site world robots start mp md delay rr).visited.Nodup ∧
    (keysOf (crawl_site world robots start mp md delay rr).data_map).Nodup := by
  have h := crawl_site_inv world robots start mp md delay rr
  exact ⟨h.keys_sub, h.vis_nodup, h.keys_nodup⟩

/-- Witness for the amended C2 at the fixture crawl. -/
theorem crawl_keys_subset_visited_witness :
    "http://a.com/" ∈ (crawl_site world0 .raised "http://a.com/" 10 0 1 false).visited ∧
    (crawl_site world0 .raised "http://a.com/" 10 0 1 false).visited.Nodup := by
  have h := crawl_keys_subset_visited world0 .raised "http://a.com/" 10 0 1 false
  exact ⟨h.1 "http://a.com/" (by rw [w0_depth0_eval]; decide), h.2.1⟩

/-- Claim C3 counterexample: when `rp.read()` raises (network failure),
the swallowed exception leaves the parser unread, and with robots
compliance enabled `should_crawl` returns `false` — not `true` — for a
URL no robots.txt ever disallowed. -/
theorem robots_failure_allow_all_counterexample :
    should_crawl "http://a.com/" (tryReadRobots .raised) true = false := by decide

/-- Claim C3 (amended): when fetching robots.txt raises, the policy gate
degrades to a *deny-all* policy, not allow-all: with compliance enabled
`should_crawl` returns `false` for every URL (the CPython parser answers
`False` while the file was never read), and with compliance disabled it
returns `true`.  The crawl itself still never hard-fails: it completes,
recording each attempted URL as `disallowed_by_robots`, as the fixture
run shows. -/
theorem robots_failure_denies (url : String) :
    should_crawl url (tryReadRobots .raised) true = false ∧
    should_crawl url (tryReadRobots .raised) false = true ∧
    crawl_site world0 .raised "http://a.com/" 10 3 1 true
      = ⟨[("http://a.com/", emptyRecord .disallowed 0)], ["http://a.com/"], []⟩ := by
  refine ⟨?_, ?_, w0_raised_respect_eval⟩
  · simp [should_crawl, can_fetch, tryReadRobots]
  · simp [should_crawl]

/-- Claim C4 counterexample: the fixture page `/b` is fetched
successfully and produces no heading or paragraph text, yet its record's
hash is the (non-empty) MD5 digest of the empty string rather than the
empty string. -/
theorem content_hash_empty_counterexample :
    dictGet? (crawl_site world0 .raised "http://a.com/" 10 3 1 false).data_map "http://a.com/b"
      = some infoB ∧ infoB.status = .code 200 ∧ infoB.elements = [] ∧ infoB.hash ≠ "" := by
  rw [w0_eval]
  exact ⟨by decide, by decide, by decide, by decide⟩

/-- Claim C4 (amended): the content hash is a stable digest of the
newline-joined heading+paragraph text — it depends only on that text —
but it is never the empty string: a fetched page with no such text gets
the fixed MD5 digest of the empty string
(`d41d8cd98f00b204e9800998ecf8427e`), not `""`.  (The empty hash occurs
only on records of pages that were never fetched.) -/
theorem content_hash_spec (es es' : List Element) :
    (hashTexts es = [] → compute_text_hash es = "d41d8cd98f00b204e9800998ecf8427e") ∧
    compute_text_hash es ≠ "" ∧
    (hashTexts es = hashTexts es' → compute_text_hash es = compute_text_hash es') := by
  refine ⟨?_, ?_, ?_⟩
  · intro h
    rw [compute_text_hash_eq, h]
    decide
  · rw [compute_text_hash_eq]
    exact hexdigest_ne_empty _
  · intro h
    rw [compute_text_hash_eq, compute_text_hash_eq, h]

/-- Witness for the amended C4: a page holding only a table hashes to the
empty-string digest, and the hash ignores everything but the
heading/paragraph text (here: the heading level). -/
theorem content_hash_spec_witness :
    compute_text_hash [Element.table [["x"]]] = "d41d8cd98f00b204e9800998ecf8427e" ∧
    compute_text_hash [Element.heading 1 "T"] = compute_text_hash [Element.heading 2 "T"] :=
  ⟨(content_hash_spec [Element.table [["x"]]] []).1 (by decide),
   (content_hash_spec [Element.heading 1 "T"] [Element.heading 2 "T"]).2.2 (by decide)⟩

/-- Claim C7 counterexample: two URLs differing only in scheme have
different `get_domain` values, yet `is_internal_link` treats them as
internal — it never compares the scheme. -/
theorem is_internal_scheme_counterexample :
    is_internal_link "http://example.com" "https://example.com" = true ∧
    get_domain "http://example.com" ≠ get_domain "https://example.com" := by
  exact ⟨by decide, by decide⟩

/-- Claim C7 (amended): `is_internal_link` returns `true` iff the two
URLs' `netloc` (host and port) components match exactly; the scheme is
ignored, so a scheme-only mismatch counts as internal, while any host or
sub-domain mismatch counts as external. -/
theorem is_internal_link_netloc_only (b t : String) :
    is_internal_link b t = true ↔ urlparse_netloc b = urlparse_netloc t := by
  simp [is_internal_link]

/-- Witness for the amended C7. -/
theorem is_internal_link_netloc_only_witness :
    is_internal_link "http://a.com/x" "https://a.com/y" = true :=
  (is_internal_link_netloc_only "http://a.com/x" "https://a.com/y").mpr (by decide)

/-- Claim C9 counterexample: with robots compliance enabled and a
robots.txt declaring a crawl delay of 5, every sleep the crawl applies
is still the configured delay 1 — the declared delay is never used. -/
theorem crawl_delay_counterexample :
    (tryReadRobots (.success [] (some 5))).crawl_delay = some 5 ∧
    (crawl_site world0 (.success [] (some 5)) "http://a.com/" 10 3 1 true).sleeps = [1, 1, 1] ∧
    (5 : Nat) ∉ (crawl_site world0 (.success [] (some 5)) "http://a.com/" 10 3 1 true).sleeps := by
  refine ⟨by decide, ?_, ?_⟩
  · rw [w0_robots_eval]
  · rw [w0_robots_eval]
    decide

/-- Claim C9 (amended): the inter-request delay applied between fetches
is always the configured delay; the site-declared crawl delay carried by
the robots parser is never consulted. -/
theorem crawl_sleeps_configured_delay (world : String → Option Doc) (robots : ReadResult)
    (start : String) (mp md delay : Nat) (rr : Bool) :
    ∀ t ∈ (crawl_site world robots start mp md delay rr).sleeps, t = delay :=
  (crawl_site_inv world robots start mp md delay rr).sleeps_delay

/-- Witness for the amended C9 at the fixture crawl with a declared
crawl delay of 5 and configured delay 1. -/
theorem crawl_sleeps_configured_delay_witness :
    (1 : Nat) ∈ (crawl_site world0 (.success [] (some 5)) "http://a.com/" 10 3 1 true).sleeps ∧
    (1 : Nat) = 1 :=
  ⟨by rw [w0_robots_eval]; decide,
   crawl_sleeps_configured_delay world0 (.success [] (some 5)) "http://a.com/" 10 3 1 true 1
     (by rw [w0_robots_eval]; decide)⟩

/-- Claim C10: every record whose status is not ok (robots-disallowed or
fetch-error) is fully empty apart from status and depth: title, meta
description, elements, links and hash are all empty. -/
theorem failed_records_empty (world : String → Option Doc) (robots : ReadResult)
    (start : String) (mp md delay : Nat) (rr : Bool) :
    ∀ p ∈ (crawl_site world robots start mp md delay rr).data_map,
      p.2.status = Status.error ∨ p.2.status = Status.disallowed →
      p.2.title = "" ∧ p.2.meta_description = "" ∧ p.2.elements = [] ∧
      p.2.links = [] ∧ p.2.hash = "" :=
  (crawl_site_inv world robots start mp md delay rr).failed_empty

/-- Witness for C10 at the fixture crawl's failed page `/c`. -/
theorem failed_records_empty_witness :
    (emptyRecord .error 1).title = "" ∧ (emptyRecord .error 1).meta_description = "" ∧
    (emptyRecord .error 1).elements = [] ∧ (emptyRecord .error 1).links = [] ∧
    (emptyRecord .error 1).hash = "" :=
  failed_records_empty world0 .raised "http://a.com/" 10 3 1 false
    ("http://a.com/c", emptyRecord .error 1) (by rw [w0_eval]; decide) (Or.inl rfl)

/-! ## Association-list lemmas shared by the analyzer claims -/

/-- In an association list with unique keys, `find?` on a present key
returns exactly that entry. -/
theorem assoc_find?_eq {β : Type} (l : List (String × β)) (k : String) (v : β)
    (hnd : (l.map Prod.fst).Nodup) (hm : (k, v) ∈ l) :
    l.find? (fun p => p.1 == k) = some (k, v) := by
  induction l with
  | nil => simp at hm
  | cons a l ih =>
    rcases List.mem_cons.mp hm with h | h
    · subst h
      simp [List.find?_cons]
    · have hk : k ∈ l.map Prod.fst := List.mem_map.mpr ⟨(k, v), h, rfl⟩
      have hnd' : a.1 ∉ l.map Prod.fst ∧ (l.map Prod.fst).Nodup := by
        rw [List.map_cons] at hnd
        exact List.nodup_cons.mp hnd
      have hne : (a.1 == k) = false := by
        simp only [beq_eq_false_iff_ne, ne_eq]
        intro he
        exact hnd'.1 (he ▸ hk)
      rw [List.find?_cons, hne]
      exact ih hnd'.2 h

/-- `dictGet?` returns `some v` exactly when `(k, v)` is an entry, for
record sets with unique keys. -/
theorem dictGet?_eq_some_iff (dm : DataMap) (k : String) (v : PageInfo)
    (hnd : (keysOf dm).Nodup) :
    dictGet? dm k = some v ↔ (k, v) ∈ dm := by
  constructor
  · intro h
    simp only [dictGet?, Option.map_eq_some'] at h
    obtain ⟨p, hp, hv⟩ := h
    have hpm := List.mem_of_find?_eq_some hp
    have hpk : p.1 = k := by simpa using List.find?_some hp
    have : p = (k, v) := by
      rcases p with ⟨p1, p2⟩
      simp_all
    exact this ▸ hpm
  · intro h
    simp only [dictGet?]
    rw [assoc_find?_eq dm k v hnd h]
    rfl

/-- A key is in `keysOf` exactly when some entry carries it. -/
theorem mem_keysOf_iff (dm : DataMap) (k : String) :
    k ∈ keysOf dm ↔ ∃ v, (k, v) ∈ dm := by
  constructor
  · intro hk
    obtain ⟨p, hp, he⟩ := List.mem_map.mp hk
    refine ⟨p.2, ?_⟩
    rw [← he, Prod.mk.eta]
    exact hp
  · rintro ⟨v, hm⟩
    exact List.mem_map.mpr ⟨(k, v), hm, rfl⟩

/-- Claim C5: for every finished record set (unique keys, the three crawl
statuses, links only on non-disallowed records), broken-link detection
reports exactly the pairs `(source, target)` where the source record is
ok, the target is among the source's outbound links, the target is a key
of the record set, and the target's status is `fetchError`; in
particular a link whose target is not a key is never reported. -/
theorem find_broken_links_spec (dm : DataMap)
    (hnd : (keysOf dm).Nodup)
    (hstat : ∀ p ∈ dm, p.2.status = Status.code 200 ∨ p.2.status = Status.error ∨
      p.2.status = Status.disallowed)
    (hdis : ∀ p ∈ dm, p.2.status = Status.disallowed → p.2.links = [])
    (s t : String) :
    (s, t) ∈ find_broken_links dm ↔
      ∃ si ti, dictGet? dm s = some si ∧ si.status = Status.code 200 ∧ t ∈ si.links ∧
        dictGet? dm t = some ti ∧ ti.status = Status.error := by
  constructor
  · intro h
    simp only [find_broken_links, List.mem_flatMap] at h
    obtain ⟨p, hp, hx⟩ := h
    split at hx
    · simp at hx
    · rename_i he
      obtain ⟨lk, hlk, hg⟩ := List.mem_filterMap.mp hx
      split at hg
      · split at hg
        · rename_i ti hget
          split at hg
          · rename_i hte
            obtain ⟨hs, ht⟩ := by simpa using hg
            subst hs
            subst ht
            have he' : p.2.status ≠ Status.error := by simpa using he
            rcases hstat p hp with h200 | herr | hdall
            · refine ⟨p.2, ti, ?_, h200, hlk, hget, by simpa using hte⟩
              exact (dictGet?_eq_some_iff dm p.1 p.2 hnd).mpr (by simpa using hp)
            · exact absurd herr he'
            · rw [hdis p hp hdall] at hlk
              simp at hlk
          · simp at hg
        · simp at hg
      · simp at hg
  · rintro ⟨si, ti, hsi, hst, htl, hti, hte⟩
    have hsm : (s, si) ∈ dm := (dictGet?_eq_some_iff dm s si hnd).mp hsi
    have htm : (t, ti) ∈ dm := (dictGet?_eq_some_iff dm t ti hnd).mp hti
    have htk : t ∈ keysOf dm := (mem_keysOf_iff dm t).mpr ⟨ti, htm⟩
    simp only [find_broken_links, List.mem_flatMap]
    refine ⟨(s, si), hsm, ?_⟩
    rw [if_neg (by rw [hst]; decide)]
    refine List.mem_filterMap.mpr ⟨t, htl, ?_⟩
    have hcon : (keysOf dm).contains t = true := List.elem_iff.mpr htk
    rw [if_pos hcon, hti]
    simp [hte]

/-- Witness for C5 on the fixture record set: the link from the ok page
to the errored page is reported, and its link to the un-crawled `/x` is
not. -/
theorem find_broken_links_spec_witness :
    ("http://s.com/", "http://s.com/t") ∈ find_broken_links dm5 ∧
    ("http://s.com/", "http://s.com/x") ∉ find_broken_links dm5 := by
  constructor
  · exact (find_broken_links_spec dm5 (by decide) (by decide) (by decide)
      "http://s.com/" "http://s.com/t").mpr
      ⟨⟨"S", "", [], ["http://s.com/t", "http://s.com/x"], .code 200, "h1", 0⟩,
       emptyRecord .error 1, by decide, by decide, by decide, by decide, by decide⟩
  · intro h
    obtain ⟨si, ti, hsi, hst, htl, hti, hte⟩ :=
      (find_broken_links_spec dm5 (by decide) (by decide) (by decide)
        "http://s.com/" "http://s.com/x").mp h
    have h0 : dictGet? dm5 "http://s.com/x" = none := by decide
    rw [h0] at hti
    exact Option.noConfusion hti

/-! ## Duplicate-detection lemmas -/

/-- Updating the group of key `h0` leaves every other key's group
unchanged. -/
theorem groupOf_update_other (acc : List (String × List String)) (h0 : String)
    (u : String) (h : String) (hne : h ≠ h0) :
    groupOf (acc.map (fun g => if g.1 == h0 then (g.1, g.2 ++ [u]) else g)) h
      = groupOf acc h := by
  induction acc with
  | nil => rfl
  | cons g acc ih =>
    rw [List.map_cons]
    by_cases e0 : g.1 = h0
    · have hgh : (g.1 == h) = false := by
        simp only [beq_eq_false_iff_ne, ne_eq]
        exact fun hc => hne (hc ▸ e0)
      rw [if_pos (by simpa using e0)]
      simp only [groupOf, hgh]
      simp only [Bool.false_eq_true, if_false]
      exact ih
    · rw [if_neg (by simpa using e0)]
      simp only [groupOf]
      by_cases eh : g.1 = h
      · rw [if_pos (by simpa using eh), if_pos (by simpa using eh)]
      · rw [if_neg (by simpa using eh), if_neg (by simpa using eh)]
        exact ih

/-- Updating the group of a present key appends the URL to that key's
group. -/
theorem groupOf_update_same (acc : List (String × List String)) (h0 : String)
    (u : String) (hany : acc.any (fun g => g.1 == h0) = true) :
    groupOf (acc.map (fun g => if g.1 == h0 then (g.1, g.2 ++ [u]) else g)) h0
      = groupOf acc h0 ++ [u] := by
  induction acc with
  | nil => simp at hany
  | cons g acc ih =>
    rw [List.map_cons]
    by_cases e0 : g.1 = h0
    · rw [if_pos (by simpa using e0)]
      simp only [groupOf]
      rw [if_pos (by simpa using e0), if_pos (by simpa using e0)]
    · rw [if_neg (by simpa using e0)]
      simp only [groupOf]
      rw [if_neg (by simpa using e0), if_neg (by simpa using e0)]
      refine ih ?_
      simpa [e0] using hany

/-- A key absent from the accumulator has the empty group. -/
theorem groupOf_eq_nil_of_not_any (acc : List (String × List String)) (h0 : String)
    (hnone : acc.any (fun g => g.1 == h0) = false) :
    groupOf acc h0 = [] := by
  induction acc with
  | nil => rfl
  | cons g acc ih =>
    simp only [List.any_cons, Bool.or_eq_false_iff] at hnone
    simp only [groupOf, hnone.1]
    simp only [Bool.false_eq_true, if_false]
    exact ih hnone.2

/-- Appending a fresh singleton group leaves every other key's group
unchanged. -/
theorem groupOf_append_of_ne (acc : List (String × List String)) (h0 : String)
    (u : String) (h : String) (hne : h ≠ h0) :
    groupOf (acc ++ [(h0, [u])]) h = groupOf acc h := by
  induction acc with
  | nil =>
    have hfalse : ((h0 : String) == h) = false := by
      simp only [beq_eq_false_iff_ne, ne_eq]
      exact fun hc => hne hc.symm
    simp [groupOf, hfalse]
  | cons g acc ih =>
    rw [List.cons_append]
    simp only [groupOf]
    by_cases eh : g.1 = h
    · rw [if_pos (by simpa using eh), if_pos (by simpa using eh)]
    · rw [if_neg (by simpa using eh), if_neg (by simpa using eh)]
      exact ih

/-- Appending a singleton group for a key the accumulator does not hold
makes that singleton the key's group. -/
theorem groupOf_append_of_not_any (acc : List (String × List String)) (h0 : String)
    (u : String) (hnone : acc.any (fun g => g.1 == h0) = false) :
    groupOf (acc ++ [(h0, [u])]) h0 = [u] := by
  induction acc with
  | nil => simp [groupOf]
  | cons g acc ih =>
    simp only [List.any_cons, Bool.or_eq_false_iff] at hnone
    rw [List.cons_append]
    simp only [groupOf, hnone.1]
    simp only [Bool.false_eq_true, if_false]
    exact ih hnone.2

/-- The effect of one grouping step on a given hash's group. -/
theorem groupOf_groupStep (acc : List (String × List String)) (p : String × PageInfo)
    (h : String) :
    groupOf (groupStep acc p) h
      = if p.2.hash ≠ "" ∧ p.2.hash = h then groupOf acc h ++ [p.1]
        else groupOf acc h := by
  unfold groupStep
  by_cases hempty : p.2.hash = ""
  · rw [if_pos (by simpa using hempty)]
    rw [if_neg (by simp [hempty])]
  · rw [if_neg (by simpa using hempty)]
    by_cases hany : acc.any (fun g => g.1 == p.2.hash) = true
    · rw [if_pos hany]
      by_cases heq : p.2.hash = h
      · subst heq
        rw [groupOf_update_same acc p.2.hash p.1 hany]
        rw [if_pos ⟨hempty, rfl⟩]
      · rw [groupOf_update_other acc p.2.hash p.1 h (fun hc => heq hc.symm)]
        rw [if_neg (by simp [heq])]
    · rw [if_neg hany]
      have hf : acc.any (fun g => g.1 == p.2.hash) = false := by
        rw [← Bool.not_eq_true]
        exact hany
      by_cases heq : p.2.hash = h
      · subst heq
        rw [groupOf_append_of_not_any acc p.2.hash p.1 hf,
          if_pos ⟨hempty, rfl⟩,
          groupOf_eq_nil_of_not_any acc p.2.hash hf]
        rfl
      · rw [groupOf_append_of_ne acc p.2.hash p.1 h (fun hc => heq hc.symm),
          if_neg (by simp [heq])]

/-- Folding the grouping step over the record list: for every non-empty
hash, the accumulated group is the document-order list of URLs of the
records carrying that hash. -/
theorem groupOf_foldl (dm : DataMap) :
    ∀ (acc : List (String × List String)) (h : String), h ≠ "" →
    groupOf (dm.foldl groupStep acc) h
      = groupOf acc h ++ (dm.filter (fun p => p.2.hash == h)).map Prod.fst := by
  induction dm with
  | nil => intro acc h _; simp
  | cons p dm ih =>
    intro acc h hne
    rw [List.foldl_cons, ih (groupStep acc p) h hne, groupOf_groupStep acc p h]
    by_cases heq : p.2.hash = h
    · rw [if_pos ⟨heq ▸ hne, heq⟩]
      rw [List.filter_cons_of_pos (by simpa using heq), List.map_cons, List.append_assoc]
      rfl
    · rw [if_neg (by simp [heq])]
      rw [List.filter_cons_of_neg (by simpa using heq)]

/-- Group keys are preserved by the in-place update. -/
theorem update_keys (acc : List (String × List String)) (h0 : String) (u : String) :
    (acc.map (fun g => if g.1 == h0 then (g.1, g.2 ++ [u]) else g)).map Prod.fst
      = acc.map Prod.fst := by
  rw [List.map_map]
  refine List.map_congr_left ?_
  intro g _
  by_cases e : g.1 = h0 <;> simp [e]

/-- The grouping fold keeps group keys unique and non-empty. -/
theorem foldl_group_keys_inv (dm : DataMap) :
    ∀ acc : List (String × List String),
    (acc.map Prod.fst).Nodup ∧ (∀ k ∈ acc.map Prod.fst, k ≠ "") →
    ((dm.foldl groupStep acc).map Prod.fst).Nodup ∧
      ∀ k ∈ (dm.foldl groupStep acc).map Prod.fst, k ≠ "" := by
  induction dm with
  | nil => intro acc hacc; simpa using hacc
  | cons p dm ih =>
    intro acc hacc
    rw [List.foldl_cons]
    refine ih (groupStep acc p) ?_
    unfold groupStep
    by_cases hempty : p.2.hash = ""
    · rw [if_pos (by simpa using hempty)]
      exact hacc
    · rw [if_neg (by simpa using hempty)]
      by_cases hany : acc.any (fun g => g.1 == p.2.hash) = true
      · rw [if_pos hany, update_keys]
        exact hacc
      · rw [if_neg hany]
        have hnotmem : p.2.hash ∉ acc.map Prod.fst := by
          intro hm
          obtain ⟨g, hg, he⟩ := List.mem_map.mp hm
          have : acc.any (fun g => g.1 == p.2.hash) = true :=
            List.any_eq_true.mpr ⟨g, hg, by simp [he]⟩
          exact hany this
        constructor
        · rw [List.map_append]
          simp only [List.map_cons, List.map_nil]
          rw [← List.concat_eq_append]
          exact List.Nodup.concat hnotmem hacc.1
        · intro k hk
          rw [List.map_append] at hk
          rcases List.mem_append.mp hk with hk | hk
          · exact hacc.2 k hk
          · simp only [List.map_cons, List.map_nil, List.mem_singleton] at hk
            exact hk ▸ hempty

/-- An entry of an accumulator with unique keys is its key's group. -/
theorem mem_group_eq (acc : List (String × List String)) (h : String)
    (urls : List String) (hnd : (acc.map Prod.fst).Nodup) (hm : (h, urls) ∈ acc) :
    groupOf acc h = urls := by
  induction acc with
  | nil => simp at hm
  | cons g acc ih =>
    rw [List.map_cons] at hnd
    rcases List.mem_cons.mp hm with he | hmem
    · rw [← he]
      simp [groupOf]
    · have hk : h ∈ acc.map Prod.fst := List.mem_map.mpr ⟨(h, urls), hmem, rfl⟩
      have hgne : (g.1 == h) = false := by
        simp only [beq_eq_false_iff_ne, ne_eq]
        intro he
        exact (List.nodup_cons.mp hnd).1 (he ▸ hk)
      simp only [groupOf, hgne]
      simp only [Bool.false_eq_true, if_false]
      exact ih (List.nodup_cons.mp hnd).2 hmem

/-- A nonempty group belongs to the accumulator as an entry. -/
theorem group_mem_of_ne_nil (acc : List (String × List String)) (h : String)
    (hne : groupOf acc h ≠ []) : (h, groupOf acc h) ∈ acc := by
  induction acc with
  | nil => simp [groupOf] at hne
  | cons g acc ih =>
    by_cases e : g.1 = h
    · subst e
      have hv : groupOf (g :: acc) g.1 = g.2 := by simp [groupOf]
      rw [hv, Prod.mk.eta]
      exact List.mem_cons_self g acc
    · have hv : groupOf (g :: acc) h = groupOf acc h := by simp [groupOf, e]
      rw [hv] at hne ⊢
      exact List.mem_cons_of_mem _ (ih hne)

/-- Two distinct members force length at least two. -/
theorem two_le_length_of_mem_ne {α : Type} {a b : α} {l : List α}
    (ha : a ∈ l) (hb : b ∈ l) (hne : a ≠ b) : 2 ≤ l.length := by
  match l with
  | [] => simp at ha
  | [x] =>
    simp only [List.mem_singleton] at ha hb
    exact absurd (ha.trans hb.symm) hne
  | x :: y :: rest => simp [List.length_cons]

/-- Claim C6: duplicate detection groups URLs by non-empty hash and
reports exactly the groups with at least two members: every reported
cluster is the document-order list of URLs whose records carry one
common non-empty hash and has size at least 2 (never 1), so empty-hash
records are never grouped; and any two distinct URLs with the same
non-empty hash land in one common reported cluster. -/
theorem detect_duplicates_spec (dm : DataMap) :
    (∀ g ∈ detect_duplicates dm, ∃ h, h ≠ "" ∧
        g = (dm.filter (fun p => p.2.hash == h)).map Prod.fst ∧ 2 ≤ g.length) ∧
    (∀ u1 u2 i1 i2, (u1, i1) ∈ dm → (u2, i2) ∈ dm → u1 ≠ u2 → i1.hash = i2.hash →
      i1.hash ≠ "" → ∃ g ∈ detect_duplicates dm, u1 ∈ g ∧ u2 ∈ g) := by
  have hkeys := foldl_group_keys_inv dm [] (by simp)
  constructor
  · intro g hg
    simp only [detect_duplicates, List.mem_filterMap] at hg
    obtain ⟨e, hmem, heq⟩ := hg
    split at heq
    · rename_i hlen
      obtain rfl : e.2 = g := by simpa using heq
      have hek : e.1 ∈ (dm.foldl groupStep []).map Prod.fst :=
        List.mem_map.mpr ⟨e, hmem, rfl⟩
      have hne : e.1 ≠ "" := hkeys.2 e.1 hek
      have hgrp : groupOf (dm.foldl groupStep []) e.1 = e.2 :=
        mem_group_eq _ e.1 e.2 hkeys.1 (by simpa using hmem)
      have hfold := groupOf_foldl dm [] e.1 hne
      refine ⟨e.1, hne, ?_, by omega⟩
      rw [← hgrp, hfold]
      rfl
    · simp at heq
  · intro u1 u2 i1 i2 h1 h2 hne hhash hne1
    set h := i1.hash with hh
    have hfold := groupOf_foldl dm [] h hne1
    have hgrp : groupOf (dm.foldl groupStep []) h
        = (dm.filter (fun p => p.2.hash == h)).map Prod.fst := by
      rw [hfold]
      rfl
    have hu1 : u1 ∈ groupOf (dm.foldl groupStep []) h := by
      rw [hgrp]
      exact List.mem_map.mpr ⟨(u1, i1), List.mem_filter.mpr ⟨h1, by simp [hh]⟩, rfl⟩
    have hu2 : u2 ∈ groupOf (dm.foldl groupStep []) h := by
      rw [hgrp]
      exact List.mem_map.mpr ⟨(u2, i2), List.mem_filter.mpr ⟨h2, by simp [hh, ← hhash]⟩, rfl⟩
    have hlen : 2 ≤ (groupOf (dm.foldl groupStep []) h).length :=
      two_le_length_of_mem_ne hu1 hu2 hne
    have hmem : (h, groupOf (dm.foldl groupStep []) h) ∈ dm.foldl groupStep [] :=
      group_mem_of_ne_nil _ h (by intro hnil; rw [hnil] at hlen; simp at hlen)
    refine ⟨groupOf (dm.foldl groupStep []) h, ?_, hu1, hu2⟩
    simp only [detect_duplicates, List.mem_filterMap]
    have hcond : 1 < (h, groupOf (dm.foldl groupStep []) h).2.length := by
      simpa using hlen
    exact ⟨(h, groupOf (dm.foldl groupStep []) h), hmem, by rw [if_pos hcond]⟩

/-- Witness for C6 on the fixture record set: the two pages sharing the
hash `"h1"` are reported in one common cluster. -/
theorem detect_duplicates_spec_witness :
    ∃ g ∈ detect_duplicates dm6, "http://s.com/" ∈ g ∧ "http://s.com/c" ∈ g :=
  (detect_duplicates_spec dm6).2 "http://s.com/" "http://s.com/c"
    ⟨"", "", [], [], .code 200, "h1", 0⟩ ⟨"", "", [], [], .code 200, "h1", 1⟩
    (by decide) (by decide) (by decide) (by decide) (by decide)

/-! ## Heading-extraction lemmas -/

/-- Paragraph blocks carry no heading. -/
theorem headOf_paragraphs (nodes : List HtmlNode) :
    (parse_paragraphs nodes).filterMap headOf = [] := by
  rw [List.filterMap_eq_nil_iff]
  intro e he
  obtain ⟨n, _, hn⟩ := List.mem_filterMap.mp he
  cases n <;> simp at hn <;> simp [← hn.2, headOf]

/-- List-item blocks carry no heading. -/
theorem headOf_list_items (nodes : List HtmlNode) :
    (parse_list_items nodes).filterMap headOf = [] := by
  rw [List.filterMap_eq_nil_iff]
  intro e he
  obtain ⟨n, _, hn⟩ := List.mem_flatMap.mp he
  cases n <;> simp at hn
  obtain ⟨li, _, _, he'⟩ := hn
  rw [← he']
  simp [headOf]

/-- Table blocks carry no heading. -/
theorem headOf_tables (nodes : List HtmlNode) :
    (parse_tables nodes).filterMap headOf = [] := by
  rw [List.filterMap_eq_nil_iff]
  intro e he
  obtain ⟨n, _, hn⟩ := List.mem_filterMap.mp he
  cases n <;> simp at hn
  rw [← hn.2]
  simp [headOf]

/-- Image blocks carry no heading. -/
theorem headOf_images (nodes : List HtmlNode) :
    (parse_images nodes).filterMap headOf = [] := by
  rw [List.filterMap_eq_nil_iff]
  intro e he
  obtain ⟨n, _, hn⟩ := List.mem_filterMap.mp he
  cases n <;> simp at hn <;> simp [← hn.2, headOf]

/-- The heading pairs of one level's extraction pass are the document's
`h<level>` tags' trimmed non-empty texts, in document order. -/
theorem headingsAtLevel_filterMap (nodes : List HtmlNode) (level : Nat) :
    (headingsAtLevel nodes level).filterMap headOf = docHeads nodes level := by
  unfold headingsAtLevel docHeads
  rw [List.filterMap_filterMap]
  congr 1
  funext n
  cases n with
  | h l t =>
    by_cases hc : (l == level && pyStrip t != "") = true
    · simp [hc, headOf]
    · simp only [Bool.not_eq_true] at hc
      simp [hc]
  | p t => rfl
  | ul items => rfl
  | table rows => rfl
  | img src alt => rfl

/-- The heading pairs of a parsed document: the six per-level passes in
level order. -/
theorem headingPairs_parse (doc : Doc) :
    headingPairs (parse_html_static doc).1
      = (List.range' 1 6).flatMap (docHeads doc.nodes) := by
  show (parse_headings doc.nodes ++ parse_paragraphs doc.nodes ++ parse_list_items doc.nodes
      ++ parse_tables doc.nodes ++ parse_images doc.nodes).filterMap headOf = _
  rw [List.filterMap_append, List.filterMap_append, List.filterMap_append,
    List.filterMap_append, headOf_paragraphs, headOf_list_items, headOf_tables,
    headOf_images]
  simp only [List.append_nil]
  unfold parse_headings
  show ((List.range' 1 6).flatMap (headingsAtLevel doc.nodes)).filterMap headOf = _
  have : List.range' 1 6 = [1, 2, 3, 4, 5, 6] := rfl
  rw [this, List.flatMap_cons, List.flatMap_cons, List.flatMap_cons, List.flatMap_cons,
    List.flatMap_cons, List.flatMap_cons, List.flatMap_nil,
    List.flatMap_cons, List.flatMap_cons, List.flatMap_cons, List.flatMap_cons,
    List.flatMap_cons, List.flatMap_cons, List.flatMap_nil]
  simp only [List.append_nil, List.filterMap_append]
  rw [headingsAtLevel_filterMap, headingsAtLevel_filterMap, headingsAtLevel_filterMap,
    headingsAtLevel_filterMap, headingsAtLevel_filterMap, headingsAtLevel_filterMap]

/-- Every pair of one level's document heads carries that level. -/
theorem docHeads_fst (nodes : List HtmlNode) (level : Nat) :
    ∀ x ∈ docHeads nodes level, x.1 = level := by
  intro x hx
  obtain ⟨n, _, hn⟩ := List.mem_filterMap.mp hx
  cases n <;> simp at hn
  rw [← hn.2]

/-- A list all of whose members equal one value is `≤`-sorted. -/
theorem pairwise_le_of_all_eq {l : List Nat} {c : Nat} (h : ∀ a ∈ l, a = c) :
    l.Pairwise (· ≤ ·) := by
  induction l with
  | nil => exact List.Pairwise.nil
  | cons a l ih =>
    refine List.Pairwise.cons ?_ (ih fun b hb => h b (List.mem_cons_of_mem _ hb))
    intro b hb
    rw [h a (List.mem_cons_self a l), h b (List.mem_cons_of_mem _ hb)]

/-- Concatenating blocks level-by-level along a sorted level list yields
a level-sorted sequence. -/
theorem pairwise_flatMap_fst (f : Nat → List (Nat × String)) :
    ∀ ls : List Nat, ls.Pairwise (· ≤ ·) → (∀ l ∈ ls, ∀ x ∈ f l, x.1 = l) →
    ((ls.flatMap f).map Prod.fst).Pairwise (· ≤ ·) := by
  intro ls
  induction ls with
  | nil => simp
  | cons l ls ih =>
    intro hs hf
    rw [List.flatMap_cons, List.map_append, List.pairwise_append]
    refine ⟨?_, ?_, ?_⟩
    · refine pairwise_le_of_all_eq (c := l) ?_
      intro a ha
      obtain ⟨x, hx, he⟩ := List.mem_map.mp ha
      exact he ▸ hf l (List.mem_cons_self l ls) x hx
    · exact ih (List.Pairwise.sublist (List.sublist_cons_self l ls) hs)
        (fun l' hl' => hf l' (List.mem_cons_of_mem _ hl'))
    · intro a ha b hb
      obtain ⟨x, hx, hex⟩ := List.mem_map.mp ha
      obtain ⟨y, hy, hey⟩ := List.mem_map.mp hb
      obtain ⟨l', hl', hyl⟩ := List.mem_flatMap.mp hy
      rw [← hex, ← hey, hf l (List.mem_cons_self l ls) x hx, hf l' (List.mem_cons_of_mem _ hl') y hyl]
      exact (List.pairwise_cons.mp hs).1 l' hl'

/-- Filtering other levels out of one level's document heads leaves
nothing. -/
theorem docHeads_filter_ne (nodes : List HtmlNode) (l' l : Nat) (hne : l' ≠ l) :
    (docHeads nodes l').filter (fun x => x.1 == l) = [] := by
  rw [List.filter_eq_nil_iff]
  intro x hx
  rw [docHeads_fst nodes l' x hx]
  simp [hne]

/-- Filtering one level's document heads by that level keeps them all. -/
theorem docHeads_filter_self (nodes : List HtmlNode) (l : Nat) :
    (docHeads nodes l).filter (fun x => x.1 == l) = docHeads nodes l := by
  rw [List.filter_eq_self]
  intro x hx
  rw [docHeads_fst nodes l x hx]
  simp

/-- Claim C8 counterexample: a document whose markup has an `h2` before
an `h1` — extraction emits the `h1` block first, inverting document
order across levels. -/
theorem parse_headings_order_counterexample :
    doc8.nodes = [HtmlNode.h 2 "A", HtmlNode.h 1 "B"] ∧
    (parse_html_static doc8).1 = [Element.heading 1 "B", Element.heading 2 "A"] := by
  constructor
  · rfl
  · decide

/-- Claim C8 (amended): extracted heading blocks are grouped by level,
level 1 first through level 6 — the level sequence of the heading blocks
is non-decreasing rather than in document order — and within each level
the blocks are the document-order trimmed non-empty texts of that
level's tags. -/
theorem parse_headings_grouped (doc : Doc) :
    ((headingPairs (parse_html_static doc).1).map Prod.fst).Pairwise (· ≤ ·) ∧
    ∀ l, 1 ≤ l → l ≤ 6 →
      (headingPairs (parse_html_static doc).1).filter (fun x => x.1 == l)
        = docHeads doc.nodes l := by
  constructor
  · rw [headingPairs_parse]
    exact pairwise_flatMap_fst (docHeads doc.nodes) (List.range' 1 6) (by decide)
      (fun l _ => docHeads_fst doc.nodes l)
  · intro l h1 h6
    rw [headingPairs_parse]
    have hr : List.range' 1 6 = [1, 2, 3, 4, 5, 6] := rfl
    rw [hr]
    simp only [List.flatMap_cons, List.flatMap_nil, List.append_nil, List.filter_append]
    interval_cases l <;>
      simp +decide [docHeads_filter_ne, docHeads_filter_self]

/-- Witness for the amended C8 at the fixture document `doc8`. -/
theorem parse_headings_grouped_witness :
    (headingPairs (parse_html_static doc8).1).filter (fun x => x.1 == 2)
      = docHeads doc8.nodes 2 :=
  (parse_headings_grouped doc8).2 2 (by decide) (by decide)

end ContentScraper
